import Mathlib

/-!
Verification of the SDC strategy-selection and graph-composition logic of
`sdcflows/workflows/base.py` (function `init_sdc_wf`).

The Python function receives a list of fieldmap records (`fmaps`, each a dict
with a `'type'` key, further string-valued keys, and — for `'epi'` records — a
`'metadata'` sub-dict), selects the highest-priority strategy via the
`FMAP_PRIORITY` table, and assembles a nipype workflow by creating sub-workflow
nodes and `workflow.connect` edges.

The shallow embedding below mirrors the source line by line:
* a record is a `Fmap` (the `'type'` entry is split out as a field, the
  `'metadata'` sub-dict as an `Option`, remaining dict items as an association
  list in insertion order);
* Python exceptions (`KeyError` on a missing dict key, `NameError` on the
  unbound `sdc_unwarp_wf` variable, `IndexError` on `fmaps[0]` of an empty
  list) are modelled with `Except PyError`;
* `list.sort` (Timsort, stable, key `FMAP_PRIORITY[fmap['type']]`) is modelled
  with Mathlib's stable `List.insertionSort`; the key computation of the
  decorate phase, which raises `KeyError` on the first unknown tag in list
  order, is modelled by `checkKeys`;
* `list.sort` mutates the caller's list in place, so the embedding returns the
  final state of the caller's list alongside the workflow;
* the nipype workflow object is modelled by `SdcWf`: its name, the
  `sdc_method` attribute, the set of constructed sub-workflow nodes, the
  `connect` edges, and the estimator inputs assigned through
  `fmap_estimator_wf.inputs.inputnode.*` / the pepolar `epi_fmaps` argument.
  The sub-workflow constructors (`init_pepolar_unwarp_wf`, `init_fmap_wf`,
  `init_phdiff_wf`, `init_sdc_unwarp_wf`, `init_syn_sdc_wf`) live outside this
  repository and are opaque: only the node they return and the ports used by
  `connect` are represented.
-/

/-- Python exceptions that `init_sdc_wf` can raise. -/
inductive PyError where
  | keyError (key : String)
  | nameError (name : String)
  | indexError
deriving DecidableEq, Repr

/-- One fieldmap record (a pybids dict).  `type` is the `'type'` entry,
`fields` the remaining string-valued items in dict (insertion) order,
`metadata` the optional `'metadata'` sub-dict. -/
structure Fmap where
  type : String
  fields : List (String × String)
  metadata : Option (List (String × String))
deriving DecidableEq, Repr

/-- The priority catalog (lines 49-54); `none` models a tag that is not a key
of the Python dict, where subscription raises `KeyError`. -/
def FMAP_PRIORITY : String → Option Nat
  | "epi" => some 0
  | "fieldmap" => some 1
  | "phasediff" => some 2
  | "syn" => some 3
  | _ => none

/-- Whether the record's type tag is in the catalog. -/
def knownType (f : Fmap) : Bool := (FMAP_PRIORITY f.type).isSome

/-- The sort key `FMAP_PRIORITY[fmap['type']]` (line 169).  Only evaluated
after `checkKeys` has ruled unknown tags out, so the default is irrelevant. -/
def rankB (f : Fmap) : Nat := (FMAP_PRIORITY f.type).getD 0

/-- The decorate phase of `list.sort(key=...)`: keys are computed in list
order and the first unknown tag raises `KeyError` (line 169). -/
def checkKeys : List Fmap → Except PyError Unit
  | [] => .ok ()
  | f :: rest =>
    match FMAP_PRIORITY f.type with
    | some _ => checkKeys rest
    | none => .error (.keyError f.type)

/-- Sort-key comparison for records. -/
def fmapLe (a b : Fmap) : Prop := rankB a ≤ rankB b

instance : DecidableRel fmapLe := fun a b => inferInstanceAs (Decidable (rankB a ≤ rankB b))

instance : IsTotal Fmap fmapLe := ⟨fun a b => Nat.le_total (rankB a) (rankB b)⟩

instance : IsTrans Fmap fmapLe := ⟨fun _ _ _ => Nat.le_trans⟩

/-- `fmaps.sort(key=lambda fmap: FMAP_PRIORITY[fmap['type']])` (line 169):
Python's Timsort is stable, as is `List.insertionSort`. -/
def sortFmaps (l : List Fmap) : List Fmap := List.insertionSort fmapLe l

/-- Lexicographic comparison of strings by code point, as Python compares
`str` keys in `sorted`. -/
def lexLe : List Char → List Char → Bool
  | [], _ => true
  | _ :: _, [] => false
  | a :: as, b :: bs =>
    if a.toNat < b.toNat then true
    else if b.toNat < a.toNat then false
    else lexLe as bs

/-- Key order on dict items, used by `sorted(fmap.items())` (line 204).
Python compares the `(key, value)` tuples, but dict keys are unique, so the
comparison is decided by the keys. -/
def pairLe (p q : String × String) : Prop := lexLe p.1.data q.1.data = true

instance : DecidableRel pairLe := fun p q =>
  inferInstanceAs (Decidable (lexLe p.1.data q.1.data = true))

/-- `key.startswith("magnitude")` (line 205); modelled structurally so it
evaluates in the kernel. -/
def startsWithMagnitude (k : String) : Bool := "magnitude".data.isPrefixOf k.data

/-- Lines 203-206: `[fmap_ for key, fmap_ in sorted(fmap.items()) if
key.startswith("magnitude")]`.  The full dict also holds the `'type'` and
`'metadata'` items, but neither key starts with `"magnitude"` and dict keys
are unique, so sorting/filtering the remaining items is equivalent. -/
def magnitudeList (f : Fmap) : List String :=
  ((List.insertionSort pairLe f.fields).filter (fun kv => startsWithMagnitude kv.1)).map
    (fun kv => kv.2)

/-- `fmap[k]` on a record: `KeyError` when the key is absent. -/
def getKey (f : Fmap) (k : String) : Except PyError String :=
  match f.fields.lookup k with
  | some v => .ok v
  | none => .error (.keyError k)

/-- One element of the `epi_fmaps` comprehension (lines 176-177):
`(fmap_['epi'], fmap_['metadata']["PhaseEncodingDirection"])`. -/
def epiPair (f : Fmap) : Except PyError (String × String) :=
  match getKey f "epi" with
  | .error e => .error e
  | .ok e =>
    match f.metadata with
    | none => .error (.keyError "metadata")
    | some md =>
      match md.lookup "PhaseEncodingDirection" with
      | some p => .ok (e, p)
      | none => .error (.keyError "PhaseEncodingDirection")

/-- Effectful map for the list comprehension: the first raising element
propagates its exception. -/
def mapE (f : Fmap → Except PyError (String × String)) :
    List Fmap → Except PyError (List (String × String))
  | [] => .ok []
  | x :: xs =>
    match f x with
    | .error e => .error e
    | .ok y =>
      match mapE f xs with
      | .error e => .error e
      | .ok ys => .ok (y :: ys)

/-- One `workflow.connect` edge: source node/port, destination node/port. -/
structure Edge where
  src : String
  srcPort : String
  dst : String
  dstPort : String
deriving DecidableEq, Repr

/-- The pieces of the workflow that the branches of `init_sdc_wf` fill in. -/
structure WfParts where
  sdc_method : Option String
  subWfs : List String
  edges : List Edge
  estPhasediff : Option String
  estMagnitudeList : Option (List String)
  estFieldmap : Option String
  estMagnitude : Option String
  epiFmaps : Option (List (String × String))
deriving DecidableEq, Repr

def emptyParts : WfParts :=
  { sdc_method := none, subWfs := [], edges := [], estPhasediff := none,
    estMagnitudeList := none, estFieldmap := none, estMagnitude := none, epiFmaps := none }

/-- The assembled outer workflow. -/
structure SdcWf where
  name : String
  inputFields : List String
  outputFields : List String
  sdc_method : Option String
  subWfs : List String
  edges : List Edge
  estPhasediff : Option String
  estMagnitudeList : Option (List String)
  estFieldmap : Option String
  estMagnitude : Option String
  epiFmaps : Option (List (String × String))
deriving DecidableEq, Repr

/-- `inputnode` fields (lines 149-152). -/
def stdInputFields : List String :=
  ["name_source", "bold_ref", "bold_ref_brain", "bold_mask",
   "t1_brain", "t1_2_mni_reverse_transform"]

/-- `outputnode` fields (lines 154-157). -/
def stdOutputFields : List String :=
  ["bold_ref", "bold_mask", "bold_ref_brain", "out_warp", "syn_bold_ref"]

/-- The outer workflow: `inputnode`/`outputnode` are created unconditionally
(lines 148-157) before any branching, so every returned workflow carries the
same port fields. -/
def assembleWf (name : String) (p : WfParts) : SdcWf :=
  { name := name
    inputFields := stdInputFields
    outputFields := stdOutputFields
    sdc_method := p.sdc_method
    subWfs := p.subWfs
    edges := p.edges
    estPhasediff := p.estPhasediff
    estMagnitudeList := p.estMagnitudeList
    estFieldmap := p.estFieldmap
    estMagnitude := p.estMagnitude
    epiFmaps := p.epiFmaps }

/-- Lines 161-165: the bypass path forwards inputs to outputs. -/
def passthroughEdges : List Edge :=
  [⟨"inputnode", "bold_ref", "outputnode", "bold_ref"⟩,
   ⟨"inputnode", "bold_mask", "outputnode", "bold_mask"⟩,
   ⟨"inputnode", "bold_ref_brain", "outputnode", "bold_ref_brain"⟩]

def passthroughParts : WfParts := { emptyParts with edges := passthroughEdges }

/-- Lines 214-221: estimator and `inputnode` wiring into `sdc_unwarp_wf`. -/
def fmapToUnwarpEdges : List Edge :=
  [⟨"inputnode", "name_source", "sdc_unwarp_wf", "inputnode.name_source"⟩,
   ⟨"fmap_estimator_wf", "outputnode.fmap", "sdc_unwarp_wf", "inputnode.fmap"⟩,
   ⟨"fmap_estimator_wf", "outputnode.fmap_ref", "sdc_unwarp_wf", "inputnode.fmap_ref"⟩,
   ⟨"fmap_estimator_wf", "outputnode.fmap_mask", "sdc_unwarp_wf", "inputnode.fmap_mask"⟩]

/-- Lines 230-235: anatomical inputs into the SyN sub-workflow. -/
def synInputEdges : List Edge :=
  [⟨"inputnode", "t1_brain", "syn_sdc_wf", "inputnode.t1_brain"⟩,
   ⟨"inputnode", "t1_2_mni_reverse_transform", "syn_sdc_wf",
    "inputnode.t1_2_mni_reverse_transform"⟩,
   ⟨"inputnode", "bold_ref_brain", "syn_sdc_wf", "inputnode.bold_ref"⟩]

/-- Lines 242-245: the report-only connection of the SyN sub-workflow. -/
def synReportEdge : Edge :=
  ⟨"syn_sdc_wf", "outputnode.out_warp_report", "outputnode", "syn_bold_ref"⟩

/-- Lines 247-253: the final wiring of whichever sub-workflow the variable
`sdc_unwarp_wf` holds into the outer output ports. -/
def finalEdges (n : String) : List Edge :=
  [⟨n, "outputnode.out_warp", "outputnode", "out_warp"⟩,
   ⟨n, "outputnode.out_reference", "outputnode", "bold_ref"⟩,
   ⟨n, "outputnode.out_reference_brain", "outputnode", "bold_ref_brain"⟩,
   ⟨n, "outputnode.out_mask", "outputnode", "bold_mask"⟩]

/-- Lines 172-253 of `init_sdc_wf`, after the sort: `fmap` is `fmaps[0]`,
`rest` the remaining sorted records.  The `Option String` threaded through the
branches is the Python local variable `sdc_unwarp_wf`, which stays unbound
(`none`) unless a branch assigns it; the final `workflow.connect` then raises
`NameError`. -/
def buildMain (fmap : Fmap) (rest : List Fmap) : Except PyError WfParts :=
  let sorted := fmap :: rest
  -- PEPOLAR path (lines 173-182)
  let step1 : Except PyError (WfParts × Option String) :=
    if fmap.type == "epi" then
      match mapE epiPair (sorted.filter (fun f => f.type == "epi")) with
      | .error e => .error e
      | .ok eps =>
        .ok ({ emptyParts with
                sdc_method := some "PEB/PEPOLAR (phase-encoding based / PE-POLARity)",
                subWfs := ["pepolar_unwarp_wf"],
                epiFmaps := some eps }, some "pepolar_unwarp_wf")
    else .ok (emptyParts, none)
  match step1 with
  | .error e => .error e
  | .ok (p1, var1) =>
    -- FIELDMAP path (lines 185-221)
    let step2 : Except PyError (WfParts × Option String) :=
      if fmap.type == "fieldmap" || fmap.type == "phasediff" then
        let est : Except PyError WfParts :=
          if fmap.type == "fieldmap" then
            match getKey fmap "fieldmap" with
            | .error e => .error e
            | .ok fm =>
              match getKey fmap "magnitude" with
              | .error e => .error e
              | .ok mg =>
                .ok { p1 with
                      sdc_method := some ("FMB (" ++ fmap.type ++ "-based)"),
                      subWfs := p1.subWfs ++ ["fmap_estimator_wf"],
                      estFieldmap := some fm, estMagnitude := some mg }
          else
            match getKey fmap "phasediff" with
            | .error e => .error e
            | .ok ph =>
              .ok { p1 with
                    sdc_method := some ("FMB (" ++ fmap.type ++ "-based)"),
                    subWfs := p1.subWfs ++ ["fmap_estimator_wf"],
                    estPhasediff := some ph,
                    estMagnitudeList := some (magnitudeList fmap) }
        match est with
        | .error e => .error e
        | .ok p =>
          .ok ({ p with
                  subWfs := p.subWfs ++ ["sdc_unwarp_wf"],
                  edges := p.edges ++ fmapToUnwarpEdges }, some "sdc_unwarp_wf")
      else .ok (p1, var1)
    match step2 with
    | .error e => .error e
    | .ok (p2, var2) =>
      -- FIELDMAP-less path (lines 224-245): `fmaps[-1]`
      let last := sorted.getLast (List.cons_ne_nil fmap rest)
      let step3 : WfParts × Option String :=
        if last.type == "syn" then
          let p := { p2 with
                     subWfs := p2.subWfs ++ ["syn_sdc_wf"],
                     edges := p2.edges ++ synInputEdges }
          if sorted.length == 1 then
            -- --force-syn was called and nothing else is available (lines 238-240)
            ({ p with sdc_method := some "FLB (\"fieldmap-less\" based) - SyN" },
             some "syn_sdc_wf")
          else
            ({ p with edges := p.edges ++ [synReportEdge] }, var2)
        else (p2, var2)
      -- final connect (lines 247-253)
      match step3.2 with
      | none => .error (.nameError "sdc_unwarp_wf")
      | some n => .ok { step3.1 with edges := step3.1.edges ++ finalEdges n }

/-- The whole of `init_sdc_wf` (lines 58-255).  On success the result pairs
the workflow with the final state of the caller-supplied `fmaps` list (which
`list.sort` reorders in place; the rebinding `fmaps = None` on line 146 does
not affect the caller).  `bold_meta`, `template`, `omp_nthreads`, `debug`,
`fmap_bspline` and `fmap_demean` are forwarded verbatim to the opaque external
sub-workflow constructors and influence nothing that is modelled. -/
def init_sdc_wf (fmaps : List Fmap) (bold_meta : List (String × String))
    (template : Option String) (omp_nthreads : Nat) (debug : Bool)
    (fmap_bspline : Bool) (fmap_demean : Bool) :
    Except PyError (SdcWf × List Fmap) :=
  -- lines 144-146: `fmaps` is replaced by `None` only when NO entry has a
  -- known type; individual unknown entries are NOT discarded
  if fmaps.any knownType then
    match checkKeys fmaps with
    | .error e => .error e
    | .ok _ =>
      match sortFmaps fmaps with
      | [] => .error .indexError
      | fmap :: rest =>
        (buildMain fmap rest).map (fun p => (assembleWf "sdc_wf" p, fmap :: rest))
  else
    -- lines 160-166: no (recognized) fieldmaps - forward inputs to outputs
    .ok (assembleWf "sdc_bypass_wf" passthroughParts, fmaps)

/-- Required-key well-formedness of a record for the branch its type selects:
`'epi'` needs `'epi'` and `metadata['PhaseEncodingDirection']` (lines 176-177),
`'fieldmap'` needs `'fieldmap'` and `'magnitude'` (lines 195-196),
`'phasediff'` needs `'phasediff'` (line 202). -/
def wellFormedB (f : Fmap) : Bool :=
  (f.type != "epi" || ((f.fields.lookup "epi").isSome &&
    (match f.metadata with
     | some md => (md.lookup "PhaseEncodingDirection").isSome
     | none => false))) &&
  (f.type != "fieldmap" || ((f.fields.lookup "fieldmap").isSome &&
    (f.fields.lookup "magnitude").isSome)) &&
  (f.type != "phasediff" || (f.fields.lookup "phasediff").isSome)

/-- Result pieces of the FALLBACK_ONLY path (lines 224-253 with a single
`'syn'` record): the SyN sub-workflow is the sole correction path. -/
def fallbackOnlyParts : WfParts :=
  { sdc_method := some "FLB (\"fieldmap-less\" based) - SyN",
    subWfs := ["syn_sdc_wf"],
    edges := synInputEdges ++ finalEdges "syn_sdc_wf",
    estPhasediff := none, estMagnitudeList := none, estFieldmap := none,
    estMagnitude := none, epiFmaps := none }


/-- Result pieces of the phasediff-only path (lines 185-221 and 247-253 with a
single `'phasediff'` record). -/
def pdOnlyParts (f : Fmap) (v : String) : WfParts :=
  { sdc_method := some "FMB (phasediff-based)",
    subWfs := ["fmap_estimator_wf", "sdc_unwarp_wf"],
    edges := fmapToUnwarpEdges ++ finalEdges "sdc_unwarp_wf",
    estPhasediff := some v, estMagnitudeList := some (magnitudeList f),
    estFieldmap := none, estMagnitude := none, epiFmaps := none }


/-- Result pieces of the phasediff-primary-plus-SyN-report path (lines 185-221,
224-245 else-branch, and 247-253). -/
def pdPlusSynParts (f : Fmap) (v : String) : WfParts :=
  { sdc_method := some "FMB (phasediff-based)",
    subWfs := ["fmap_estimator_wf", "sdc_unwarp_wf", "syn_sdc_wf"],
    edges := fmapToUnwarpEdges ++ synInputEdges ++ [synReportEdge] ++ finalEdges "sdc_unwarp_wf",
    estPhasediff := some v, estMagnitudeList := some (magnitudeList f),
    estFieldmap := none, estMagnitude := none, epiFmaps := none }


/-- The spec's reading of the magnitude wiring: collect every raw input whose
key starts with `"magnitude"`, then sort ascending by key name.  (The source
sorts the whole dict first and filters afterwards; the two agree when the dict
keys are distinct.) -/
def specMagnitudeList (d : List (String × String)) : List String :=
  (List.insertionSort pairLe (d.filter (fun kv => startsWithMagnitude kv.1))).map
    (fun kv => kv.2)

/-- Concrete example records used in witnesses and counterexamples. -/
def pdE : Fmap :=
  ⟨"phasediff", [("phasediff", "P"), ("magnitude2", "B"), ("magnitude1", "A")], none⟩

def unkE : Fmap := ⟨"weird", [], none⟩

def synE : Fmap := ⟨"syn", [], none⟩

def epiE : Fmap := ⟨"epi", [("epi", "E")], some [("PhaseEncodingDirection", "j")]⟩

def fmE : Fmap := ⟨"fieldmap", [], none⟩

def pdNoMagE : Fmap := ⟨"phasediff", [("phasediff", "P")], none⟩


theorem checkKeys_ok (l : List Fmap) (h : ∀ f ∈ l, (FMAP_PRIORITY f.type).isSome) :
    checkKeys l = .ok () := by
  induction l with
  | nil => rfl
  | cons a t ih =>
    cases hp : FMAP_PRIORITY a.type with
    | some r =>
      simp only [checkKeys, hp]
      exact ih fun f hf => h f (List.mem_cons_of_mem a hf)
    | none =>
      exact absurd (h a (List.mem_cons_self a t)) (by rw [hp]; simp)

theorem checkKeys_error (l : List Fmap) (u : Fmap)
    (h : l.find? (fun f => (FMAP_PRIORITY f.type).isNone) = some u) :
    checkKeys l = .error (.keyError u.type) := by
  induction l with
  | nil => simp at h
  | cons a t ih =>
    cases hp : FMAP_PRIORITY a.type with
    | none =>
      have hpa : (fun f => (FMAP_PRIORITY f.type).isNone) a = true := by simp [hp]
      rw [@List.find?_cons_of_pos _ (fun f => (FMAP_PRIORITY f.type).isNone) a t hpa] at h
      injection h with h
      subst h
      simp only [checkKeys, hp]
    | some r =>
      have hpa : ¬ (fun f => (FMAP_PRIORITY f.type).isNone) a = true := by simp [hp]
      rw [@List.find?_cons_of_neg _ (fun f => (FMAP_PRIORITY f.type).isNone) a t hpa] at h
      simp only [checkKeys, hp]
      exact ih h

theorem sortFmaps_perm (l : List Fmap) : List.Perm (sortFmaps l) l :=
  List.perm_insertionSort fmapLe l

theorem sortFmaps_sorted (l : List Fmap) : List.Sorted fmapLe (sortFmaps l) :=
  List.sorted_insertionSort fmapLe l

/-- Inserting a record distributes over filtering by an equal-rank class:
elements the insertion walks past have strictly smaller rank, so they are
never in the same class. -/
theorem filter_rank_orderedInsert (n : Nat) (a : Fmap) (s : List Fmap) :
    (List.orderedInsert fmapLe a s).filter (fun f => rankB f == n) =
      if rankB a == n then a :: s.filter (fun f => rankB f == n)
      else s.filter (fun f => rankB f == n) := by
  induction s with
  | nil =>
    simp only [List.orderedInsert, List.filter]
    by_cases ha : (rankB a == n) = true <;> simp [ha]
  | cons b t ih =>
    by_cases hab : fmapLe a b
    · rw [List.orderedInsert, if_pos hab, List.filter_cons]
    · rw [List.orderedInsert, if_neg hab, List.filter_cons, List.filter_cons]
      by_cases hb : (rankB b == n) = true
      · have ha : ¬ ((rankB a == n) = true) := by
          intro hc
          exact hab (le_of_eq ((eq_of_beq hc).trans (eq_of_beq hb).symm))
        simp [hb, ih, ha]
      · simp [hb, ih]

/-- Stability of the priority sort: each equal-rank class keeps its original
input order. -/
theorem sortFmaps_filter_rank (l : List Fmap) (n : Nat) :
    (sortFmaps l).filter (fun f => rankB f == n) = l.filter (fun f => rankB f == n) := by
  induction l with
  | nil => rfl
  | cons a t ih =>
    show (List.orderedInsert fmapLe a (List.insertionSort fmapLe t)).filter _ = _
    rw [filter_rank_orderedInsert, List.filter_cons]
    show _ = if (rankB a == n) = true then a :: t.filter _ else t.filter _
    rw [← ih]
    rfl

theorem find?_eq_filter_head? (p : Fmap → Bool) (l : List Fmap) :
    l.find? p = (l.filter p).head? := by
  induction l with
  | nil => rfl
  | cons a t ih =>
    by_cases h : p a = true
    · rw [List.find?_cons_of_pos _ h, List.filter_cons, if_pos h]
      rfl
    · rw [List.find?_cons_of_neg _ h, List.filter_cons, if_neg h]
      exact ih

/-- The head of the sorted list is rank-minimal and is the FIRST input record
attaining that rank (the stable tie-break). -/
theorem sortFmaps_head (l : List Fmap) (sel : Fmap) (tail : List Fmap)
    (h : sortFmaps l = sel :: tail) :
    (∀ f ∈ l, rankB sel ≤ rankB f) ∧
      l.find? (fun f => rankB f == rankB sel) = some sel := by
  constructor
  · intro f hf
    have hmem : f ∈ sortFmaps l := (sortFmaps_perm l).mem_iff.mpr hf
    rw [h] at hmem
    rcases List.mem_cons.mp hmem with rfl | hmem
    · exact Nat.le_refl _
    · have hs := sortFmaps_sorted l
      rw [h] at hs
      exact (List.sorted_cons.mp hs).1 f hmem
  · rw [find?_eq_filter_head?, ← sortFmaps_filter_rank, h, List.filter_cons, if_pos (by simp)]
    rfl

/-- In a rank-sorted list the last element has the largest rank. -/
theorem sorted_rank_le_getLast :
    ∀ (l : List Fmap) (hne : l ≠ []), List.Sorted fmapLe l →
      ∀ f ∈ l, rankB f ≤ rankB (l.getLast hne)
  | [], hne, _, _, _ => absurd rfl hne
  | [a], _, _, f, hf => by
    simp only [List.mem_singleton] at hf
    subst hf
    exact Nat.le_refl _
  | a :: b :: t, _, hs, f, hf => by
    rw [List.getLast_cons (List.cons_ne_nil b t)]
    rcases List.mem_cons.mp hf with rfl | hf'
    · exact (List.sorted_cons.mp hs).1 _ (List.getLast_mem (List.cons_ne_nil b t))
    · exact sorted_rank_le_getLast (b :: t) (List.cons_ne_nil b t)
        (List.sorted_cons.mp hs).2 f hf'

/-- Sorting a list of records of a single rank leaves it unchanged. -/
theorem sortFmaps_of_const_rank (l : List Fmap) (n : Nat) (h : ∀ f ∈ l, rankB f = n) :
    sortFmaps l = l := by
  induction l with
  | nil => rfl
  | cons a t ih =>
    show List.orderedInsert fmapLe a (List.insertionSort fmapLe t) = a :: t
    rw [show List.insertionSort fmapLe t = sortFmaps t from rfl,
      ih fun f hf => h f (List.mem_cons_of_mem a hf)]
    cases t with
    | nil => rfl
    | cons b t' =>
      rw [List.orderedInsert, if_pos]
      show rankB a ≤ rankB b
      rw [h a (List.mem_cons_self _ _), h b (List.mem_cons_of_mem a (List.mem_cons_self _ _))]

theorem mapE_ok (f : Fmap → Except PyError (String × String)) (xs : List Fmap)
    (h : ∀ x ∈ xs, ∃ y, f x = .ok y) : ∃ ys, mapE f xs = .ok ys := by
  induction xs with
  | nil => exact ⟨[], rfl⟩
  | cons a t ih =>
    obtain ⟨y, hy⟩ := h a (List.mem_cons_self a t)
    obtain ⟨ys, hys⟩ := ih fun x hx => h x (List.mem_cons_of_mem a hx)
    exact ⟨y :: ys, by simp only [mapE, hy, hys]⟩

theorem FMAP_PRIORITY_cases (s : String) (h : (FMAP_PRIORITY s).isSome) :
    s = "epi" ∨ s = "fieldmap" ∨ s = "phasediff" ∨ s = "syn" := by
  unfold FMAP_PRIORITY at h
  split at h
  · exact Or.inl rfl
  · exact Or.inr (Or.inl rfl)
  · exact Or.inr (Or.inr (Or.inl rfl))
  · exact Or.inr (Or.inr (Or.inr rfl))
  · simp at h

theorem rankB_eq_of_type {f : Fmap} {s : String} (h : f.type = s) :
    rankB f = (FMAP_PRIORITY s).getD 0 := by
  unfold rankB
  rw [h]

theorem rankB_le_three {f : Fmap} (hk : (FMAP_PRIORITY f.type).isSome) : rankB f ≤ 3 := by
  rcases FMAP_PRIORITY_cases f.type hk with h | h | h | h <;>
    rw [rankB_eq_of_type h] <;> decide

theorem type_syn_of_rank_three {f : Fmap} (hk : (FMAP_PRIORITY f.type).isSome)
    (hr : rankB f = 3) : f.type = "syn" := by
  rcases FMAP_PRIORITY_cases f.type hk with h | h | h | h
  · rw [rankB_eq_of_type h] at hr; exact absurd hr (by decide)
  · rw [rankB_eq_of_type h] at hr; exact absurd hr (by decide)
  · rw [rankB_eq_of_type h] at hr; exact absurd hr (by decide)
  · exact h

theorem lexLe_total : ∀ as bs : List Char, lexLe as bs = true ∨ lexLe bs as = true := by
  intro as
  induction as with
  | nil => intro bs; left; rfl
  | cons a as ih =>
    intro bs
    cases bs with
    | nil => right; rfl
    | cons b bs =>
      simp only [lexLe]
      rcases Nat.lt_trichotomy a.toNat b.toNat with h | h | h
      · left; rw [if_pos h]
      · have h1 : ¬ a.toNat < b.toNat := by omega
        have h2 : ¬ b.toNat < a.toNat := by omega
        simp only [h1, h2, if_false, ite_false]
        exact ih bs
      · right; rw [if_pos h]

theorem lexLe_trans : ∀ as bs cs : List Char,
    lexLe as bs = true → lexLe bs cs = true → lexLe as cs = true := by
  intro as
  induction as with
  | nil => intro bs cs _ _; rfl
  | cons a as ih =>
    intro bs cs h1 h2
    cases bs with
    | nil => exact absurd h1 (by simp [lexLe])
    | cons b bs =>
      cases cs with
      | nil => exact absurd h2 (by simp [lexLe])
      | cons c cs =>
        simp only [lexLe] at h1 h2 ⊢
        split_ifs at h1 h2 ⊢ <;>
          first
            | rfl
            | omega
            | exact ih bs cs h1 h2
            | simp_all

theorem lexLe_antisymm : ∀ as bs : List Char,
    lexLe as bs = true → lexLe bs as = true → as = bs := by
  intro as
  induction as with
  | nil =>
    intro bs _ h2
    cases bs with
    | nil => rfl
    | cons b bs => exact absurd h2 (by simp [lexLe])
  | cons a as ih =>
    intro bs h1 h2
    cases bs with
    | nil => exact absurd h1 (by simp [lexLe])
    | cons b bs =>
      simp only [lexLe] at h1 h2
      by_cases hab : a.toNat < b.toNat
      · have hba : ¬ b.toNat < a.toNat := by omega
        rw [if_neg hba, if_pos hab] at h2
        exact absurd h2 Bool.false_ne_true
      · by_cases hba : b.toNat < a.toNat
        · rw [if_neg hab, if_pos hba] at h1
          exact absurd h1 Bool.false_ne_true
        · rw [if_neg hab, if_neg hba] at h1
          rw [if_neg hba, if_neg hab] at h2
          have hn : a.toNat = b.toNat := by omega
          have hab2 : a = b := Char.ext (UInt32.toNat.inj hn)
          subst hab2
          rw [ih bs h1 h2]

instance : IsTotal (String × String) pairLe :=
  ⟨fun p q => lexLe_total p.1.data q.1.data⟩

instance : IsTrans (String × String) pairLe :=
  ⟨fun p q u h1 h2 => lexLe_trans p.1.data q.1.data u.1.data h1 h2⟩

/-- Strict key order: used to show that a key-sorted list with pairwise
distinct keys is unique among its permutations. -/
def pairKeyLt (p q : String × String) : Prop := pairLe p q ∧ p.1 ≠ q.1

instance : IsAntisymm (String × String) pairKeyLt :=
  ⟨fun p q h1 h2 => by
    have : p.1.data = q.1.data := lexLe_antisymm p.1.data q.1.data h1.1 h2.1
    have hk : p.1 = q.1 := by
      cases hp : p.1
      cases hq : q.1
      rw [hp, hq] at this
      cases this
      rfl
    exact absurd hk h1.2⟩

theorem pairwise_keyLt_of_nodup {l : List (String × String)}
    (hs : List.Pairwise pairLe l) (hn : (l.map Prod.fst).Nodup) :
    List.Pairwise pairKeyLt l := by
  have hn' : List.Pairwise (fun p q : String × String => p.1 ≠ q.1) l :=
    List.pairwise_map.mp hn
  exact (hs.and hn').imp fun h => h

/-- A key-sorted association list with pairwise distinct keys is determined by
its multiset of entries. -/
theorem sortPairs_eq_of_perm (d1 d2 : List (String × String))
    (hp : List.Perm d1 d2) (hn : (d1.map Prod.fst).Nodup) :
    List.insertionSort pairLe d1 = List.insertionSort pairLe d2 := by
  have hperm : List.Perm (List.insertionSort pairLe d1) (List.insertionSort pairLe d2) :=
    ((List.perm_insertionSort pairLe d1).trans hp).trans
      (List.perm_insertionSort pairLe d2).symm
  have hn1 : ((List.insertionSort pairLe d1).map Prod.fst).Nodup :=
    (((List.perm_insertionSort pairLe d1).symm).map Prod.fst).nodup hn
  have hn2 : ((List.insertionSort pairLe d2).map Prod.fst).Nodup :=
    ((hperm.map Prod.fst)).nodup hn1
  exact List.eq_of_perm_of_sorted hperm
    (pairwise_keyLt_of_nodup (List.sorted_insertionSort pairLe d1) hn1)
    (pairwise_keyLt_of_nodup (List.sorted_insertionSort pairLe d2) hn2)

/-- Filtering a key-sorted list (source: sort, then filter) equals sorting the
filtered list (spec reading: collect, then sort), when keys are distinct. -/
theorem sortPairs_filter_comm (d : List (String × String))
    (hn : (d.map Prod.fst).Nodup) (p : String × String → Bool) :
    (List.insertionSort pairLe d).filter p = List.insertionSort pairLe (d.filter p) := by
  have hperm : List.Perm ((List.insertionSort pairLe d).filter p)
      (List.insertionSort pairLe (d.filter p)) :=
    (((List.perm_insertionSort pairLe d)).filter p).trans
      (List.perm_insertionSort pairLe (d.filter p)).symm
  have hnsort : ((List.insertionSort pairLe d).map Prod.fst).Nodup :=
    (((List.perm_insertionSort pairLe d).symm).map Prod.fst).nodup hn
  have hn1 : (((List.insertionSort pairLe d).filter p).map Prod.fst).Nodup :=
    ((List.filter_sublist (List.insertionSort pairLe d)).map Prod.fst).nodup hnsort
  have hn2 : ((List.insertionSort pairLe (d.filter p)).map Prod.fst).Nodup :=
    ((hperm.map Prod.fst)).nodup hn1
  exact List.eq_of_perm_of_sorted hperm
    (pairwise_keyLt_of_nodup
      ((List.sorted_insertionSort pairLe d).filter p) hn1)
    (pairwise_keyLt_of_nodup (List.sorted_insertionSort pairLe (d.filter p)) hn2)

theorem init_single_syn (fs : List (String × String)) (md : Option (List (String × String)))
    (m : List (String × String)) (tpl : Option String) (k : Nat) (d b dm : Bool) :
    init_sdc_wf [⟨"syn", fs, md⟩] m tpl k d b dm =
      .ok (assembleWf "sdc_wf" fallbackOnlyParts, [⟨"syn", fs, md⟩]) := rfl

theorem init_single_phasediff (fs : List (String × String)) (md : Option (List (String × String)))
    (v : String) (m : List (String × String)) (tpl : Option String) (k : Nat) (d b dm : Bool)
    (h : fs.lookup "phasediff" = some v) :
    init_sdc_wf [⟨"phasediff", fs, md⟩] m tpl k d b dm =
      .ok (assembleWf "sdc_wf" (pdOnlyParts ⟨"phasediff", fs, md⟩ v),
           [⟨"phasediff", fs, md⟩]) := by
  have hg : getKey ⟨"phasediff", fs, md⟩ "phasediff" = .ok v := by
    unfold getKey
    rw [show (Fmap.mk "phasediff" fs md).fields = fs from rfl, h]
  simp [init_sdc_wf, buildMain, hg, sortFmaps, checkKeys, knownType, FMAP_PRIORITY, pdOnlyParts, assembleWf, emptyParts, Except.map]

theorem init_single_fieldmap_missing_fm (fs : List (String × String))
    (md : Option (List (String × String))) (m : List (String × String))
    (tpl : Option String) (k : Nat) (d b dm : Bool)
    (h : fs.lookup "fieldmap" = none) :
    init_sdc_wf [⟨"fieldmap", fs, md⟩] m tpl k d b dm = .error (.keyError "fieldmap") := by
  have hg : getKey ⟨"fieldmap", fs, md⟩ "fieldmap" = .error (.keyError "fieldmap") := by
    unfold getKey
    rw [show (Fmap.mk "fieldmap" fs md).fields = fs from rfl, h]
  simp [init_sdc_wf, buildMain, hg, sortFmaps, checkKeys, knownType, FMAP_PRIORITY, Except.map]

theorem init_single_fieldmap_missing_mag (fs : List (String × String))
    (md : Option (List (String × String))) (v : String) (m : List (String × String))
    (tpl : Option String) (k : Nat) (d b dm : Bool)
    (hfm : fs.lookup "fieldmap" = some v) (h : fs.lookup "magnitude" = none) :
    init_sdc_wf [⟨"fieldmap", fs, md⟩] m tpl k d b dm = .error (.keyError "magnitude") := by
  have hg1 : getKey ⟨"fieldmap", fs, md⟩ "fieldmap" = .ok v := by
    unfold getKey
    rw [show (Fmap.mk "fieldmap" fs md).fields = fs from rfl, hfm]
  have hg2 : getKey ⟨"fieldmap", fs, md⟩ "magnitude" = .error (.keyError "magnitude") := by
    unfold getKey
    rw [show (Fmap.mk "fieldmap" fs md).fields = fs from rfl, h]
  simp [init_sdc_wf, buildMain, hg1, hg2, sortFmaps, checkKeys, knownType, FMAP_PRIORITY, Except.map]

theorem init_single_phasediff_missing (fs : List (String × String))
    (md : Option (List (String × String))) (m : List (String × String))
    (tpl : Option String) (k : Nat) (d b dm : Bool)
    (h : fs.lookup "phasediff" = none) :
    init_sdc_wf [⟨"phasediff", fs, md⟩] m tpl k d b dm = .error (.keyError "phasediff") := by
  have hg : getKey ⟨"phasediff", fs, md⟩ "phasediff" = .error (.keyError "phasediff") := by
    unfold getKey
    rw [show (Fmap.mk "phasediff" fs md).fields = fs from rfl, h]
  simp [init_sdc_wf, buildMain, hg, sortFmaps, checkKeys, knownType, FMAP_PRIORITY, Except.map]

theorem epiPair_ok (f : Fmap) (ht : f.type = "epi") (hw : wellFormedB f = true) :
    ∃ y, epiPair f = .ok y := by
  unfold wellFormedB at hw
  rw [ht] at hw
  simp only [bne_self_eq_false, Bool.false_or, Bool.and_eq_true] at hw
  obtain ⟨⟨⟨he, hmd⟩, -⟩, -⟩ := hw
  cases hge : f.fields.lookup "epi" with
  | none => rw [hge] at he; simp at he
  | some e =>
    cases hm : f.metadata with
    | none => rw [hm] at hmd; simp at hmd
    | some md =>
      rw [hm] at hmd
      cases hp : md.lookup "PhaseEncodingDirection" with
      | none => simp only [hp] at hmd; simp at hmd
      | some p =>
        refine ⟨(e, p), ?_⟩
        unfold epiPair getKey
        simp [hge, hm, hp]

theorem buildMain_ok_epi (fmap : Fmap) (rest : List Fmap) (h : fmap.type = "epi")
    (hwf : ∀ f ∈ fmap :: rest, f.type = "epi" → wellFormedB f = true) :
    ∃ p, buildMain fmap rest = .ok p := by
  obtain ⟨eps, hmE⟩ :
      ∃ eps, mapE epiPair (fmap :: rest.filter (fun f => f.type == "epi")) = .ok eps := by
    apply mapE_ok
    intro x hx
    rcases List.mem_cons.mp hx with rfl | hx'
    · exact epiPair_ok x h (hwf x (List.mem_cons_self _ _) h)
    · have hxm : x ∈ rest := List.mem_of_mem_filter hx'
      have hxt : x.type = "epi" := by
        have := List.of_mem_filter hx'
        simpa using this
      exact epiPair_ok x hxt (hwf x (List.mem_cons_of_mem _ hxm) hxt)
  unfold buildMain
  by_cases hr : rest = []
  · subst hr
    simp only [List.filter_nil] at hmE
    simp [h, hmE]
  · by_cases hl : (rest.getLast hr).type = "syn"
    · simp [h, hmE, hl, hr]
    · simp [h, hmE, hl, hr]

theorem buildMain_ok_fieldmap (fmap : Fmap) (rest : List Fmap) (h : fmap.type = "fieldmap")
    (hwf : wellFormedB fmap = true) :
    ∃ p, buildMain fmap rest = .ok p := by
  unfold wellFormedB at hwf
  rw [h] at hwf
  simp only [bne_self_eq_false, Bool.false_or, Bool.and_eq_true] at hwf
  obtain ⟨⟨-, hfm, hmg⟩, -⟩ := hwf
  cases hg1 : fmap.fields.lookup "fieldmap" with
  | none => rw [hg1] at hfm; simp at hfm
  | some fm =>
  cases hg2 : fmap.fields.lookup "magnitude" with
  | none => rw [hg2] at hmg; simp at hmg
  | some mg =>
  have hk1 : getKey fmap "fieldmap" = .ok fm := by unfold getKey; rw [hg1]
  have hk2 : getKey fmap "magnitude" = .ok mg := by unfold getKey; rw [hg2]
  unfold buildMain
  by_cases hr : rest = []
  · subst hr
    simp [h, hk1, hk2]
  · by_cases hl : (rest.getLast hr).type = "syn"
    · simp [h, hk1, hk2, hl, hr]
    · simp [h, hk1, hk2, hl, hr]

theorem buildMain_ok_phasediff (fmap : Fmap) (rest : List Fmap) (h : fmap.type = "phasediff")
    (hwf : wellFormedB fmap = true) :
    ∃ p, buildMain fmap rest = .ok p := by
  unfold wellFormedB at hwf
  rw [h] at hwf
  simp only [bne_self_eq_false, Bool.or_false, Bool.and_eq_true] at hwf
  have hpd := hwf.2
  rw [Bool.or_eq_true] at hpd
  have hpd2 : (fmap.fields.lookup "phasediff").isSome = true := by
    rcases hpd with hh | hh
    · exact absurd hh (by decide)
    · exact hh
  cases hg : fmap.fields.lookup "phasediff" with
  | none => rw [hg] at hpd2; simp at hpd2
  | some v =>
  have hk : getKey fmap "phasediff" = .ok v := by unfold getKey; rw [hg]
  unfold buildMain
  by_cases hr : rest = []
  · subst hr
    simp [h, hk]
  · by_cases hl : (rest.getLast hr).type = "syn"
    · simp [h, hk, hl, hr]
    · simp [h, hk, hl, hr]

theorem buildMain_ok_syn_single (fmap : Fmap) (h : fmap.type = "syn") :
    ∃ p, buildMain fmap [] = .ok p := by
  obtain ⟨ty, fs, md⟩ := fmap
  simp only [Fmap.type] at h
  subst h
  exact ⟨_, rfl⟩

theorem buildMain_syn_multi (fmap : Fmap) (rest : List Fmap) (h : fmap.type = "syn")
    (hne : rest ≠ [])
    (hlast : ((fmap :: rest).getLast (List.cons_ne_nil fmap rest)).type = "syn") :
    buildMain fmap rest = .error (.nameError "sdc_unwarp_wf") := by
  rw [List.getLast_cons hne] at hlast
  unfold buildMain
  simp [h, hlast, hne]

theorem init_bypass (l : List Fmap) (m : List (String × String)) (tpl : Option String)
    (k : Nat) (d b dm : Bool) (h : ∀ f ∈ l, FMAP_PRIORITY f.type = none) :
    init_sdc_wf l m tpl k d b dm = .ok (assembleWf "sdc_bypass_wf" passthroughParts, l) := by
  have hany : l.any knownType = false := by
    rw [List.any_eq_false]
    intro f hf
    unfold knownType
    rw [h f hf]
    decide
  unfold init_sdc_wf
  rw [hany]
  rfl

theorem init_unknown_raises (l : List Fmap) (u : Fmap) (m : List (String × String))
    (tpl : Option String) (k : Nat) (d b dm : Bool)
    (hk : l.any knownType = true)
    (hu : l.find? (fun f => (FMAP_PRIORITY f.type).isNone) = some u) :
    init_sdc_wf l m tpl k d b dm = .error (.keyError u.type) := by
  unfold init_sdc_wf
  rw [hk, checkKeys_error l u hu]
  rfl

theorem init_allsyn_error (l : List Fmap) (m : List (String × String)) (tpl : Option String)
    (k : Nat) (d b dm : Bool)
    (h2 : 2 ≤ l.length) (hall : ∀ f ∈ l, f.type = "syn") :
    init_sdc_wf l m tpl k d b dm = .error (.nameError "sdc_unwarp_wf") := by
  obtain ⟨a, t, rfl⟩ : ∃ a t, l = a :: t := by
    cases l with
    | nil => simp at h2
    | cons a t => exact ⟨a, t, rfl⟩
  have hsort : sortFmaps (a :: t) = a :: t :=
    sortFmaps_of_const_rank _ 3 fun f hf => by rw [rankB_eq_of_type (hall f hf)]; decide
  have hany : (a :: t).any knownType = true := by
    rw [List.any_eq_true]
    exact ⟨a, List.mem_cons_self a t,
      by unfold knownType; rw [hall a (List.mem_cons_self a t)]; decide⟩
  have hck : checkKeys (a :: t) = .ok () :=
    checkKeys_ok _ fun f hf => by rw [hall f hf]; decide
  have htne : t ≠ [] := by
    intro hteq
    subst hteq
    simp at h2
  have hlast : ((a :: t).getLast (List.cons_ne_nil a t)).type = "syn" :=
    hall _ (List.getLast_mem _)
  have hbm := buildMain_syn_multi a t (hall a (List.mem_cons_self a t)) htne hlast
  unfold init_sdc_wf
  rw [hany]
  simp [hck, hsort, hbm, Except.map]

theorem init_ok_inversion (l : List Fmap) (m : List (String × String)) (tpl : Option String)
    (k : Nat) (d b dm : Bool) (wf : SdcWf) (rest : List Fmap)
    (h : init_sdc_wf l m tpl k d b dm = .ok (wf, rest)) :
    (∃ p, wf = assembleWf "sdc_wf" p ∧ rest = sortFmaps l) ∨
      (wf = assembleWf "sdc_bypass_wf" passthroughParts ∧ rest = l) := by
  unfold init_sdc_wf at h
  by_cases hany : l.any knownType = true
  · rw [if_pos hany] at h
    cases hck : checkKeys l with
    | error e => rw [hck] at h; exact absurd h (by simp)
    | ok u =>
      rw [hck] at h
      cases hs : sortFmaps l with
      | nil => rw [hs] at h; exact absurd h (by simp)
      | cons x y =>
        rw [hs] at h
        have hmap : (buildMain x y).map (fun p => (assembleWf "sdc_wf" p, x :: y)) =
            .ok (wf, rest) := h
        cases hb : buildMain x y with
        | error e => rw [hb] at hmap; exact absurd hmap (by simp [Except.map])
        | ok p =>
          rw [hb] at hmap
          simp only [Except.map, Except.ok.injEq, Prod.mk.injEq] at hmap
          obtain ⟨h1, h2⟩ := hmap
          exact Or.inl ⟨p, h1.symm, h2.symm⟩
  · rw [if_neg hany] at h
    simp only [Except.ok.injEq, Prod.mk.injEq] at h
    exact Or.inr ⟨h.1.symm, h.2.symm⟩

theorem find?_congr_mem (p q : Fmap → Bool) :
    ∀ (l : List Fmap), (∀ x ∈ l, p x = q x) → l.find? p = l.find? q := by
  intro l
  induction l with
  | nil => intro _; rfl
  | cons a t ih =>
    intro h
    have ha := h a (List.mem_cons_self a t)
    by_cases hp : p a = true
    · rw [List.find?_cons_of_pos _ hp, List.find?_cons_of_pos _ (ha ▸ hp)]
    · rw [List.find?_cons_of_neg _ hp, List.find?_cons_of_neg _ (ha ▸ hp)]
      exact ih fun x hx => h x (List.mem_cons_of_mem a hx)

theorem init_ok_of_wellformed (l : List Fmap) (m : List (String × String))
    (tpl : Option String) (k : Nat) (d b dm : Bool)
    (hwf : ∀ f ∈ l, wellFormedB f = true)
    (hk : ∀ f ∈ l, (FMAP_PRIORITY f.type).isSome = true)
    (hcase : (∃ f ∈ l, f.type ≠ "syn") ∨ l.length = 1) :
    ∃ wf rest, init_sdc_wf l m tpl k d b dm = .ok (wf, rest) := by
  have hlne : l ≠ [] := by
    rcases hcase with ⟨f, hf, -⟩ | h1
    · exact List.ne_nil_of_mem hf
    · intro he
      subst he
      simp at h1
  obtain ⟨sel, tail, hsort⟩ : ∃ sel tail, sortFmaps l = sel :: tail := by
    cases hs : sortFmaps l with
    | nil =>
      exfalso
      have hlen := (sortFmaps_perm l).length_eq
      rw [hs] at hlen
      cases l with
      | nil => exact absurd rfl hlne
      | cons x xs => simp at hlen
    | cons x y => exact ⟨x, y, rfl⟩
  have hselmem : sel ∈ l := by
    have hm : sel ∈ sortFmaps l := by
      rw [hsort]
      exact List.mem_cons_self _ _
    exact (sortFmaps_perm l).mem_iff.mp hm
  have hany : l.any knownType = true := by
    rw [List.any_eq_true]
    exact ⟨sel, hselmem, hk sel hselmem⟩
  have hck : checkKeys l = .ok () := checkKeys_ok l hk
  obtain ⟨p, hbm⟩ : ∃ p, buildMain sel tail = .ok p := by
    rcases FMAP_PRIORITY_cases sel.type (hk sel hselmem) with ht | ht | ht | ht
    · apply buildMain_ok_epi sel tail ht
      intro f hf hft
      apply hwf
      have hm : f ∈ sortFmaps l := by
        rw [hsort]
        exact hf
      exact (sortFmaps_perm l).mem_iff.mp hm
    · exact buildMain_ok_fieldmap sel tail ht (hwf sel hselmem)
    · exact buildMain_ok_phasediff sel tail ht (hwf sel hselmem)
    · rcases hcase with ⟨f0, hf0, hf0t⟩ | h1
      · exfalso
        have hmin := (sortFmaps_head l sel tail hsort).1 f0 hf0
        have h3 : rankB sel = 3 := by rw [rankB_eq_of_type ht]; decide
        have hle2 : rankB f0 ≤ 2 := by
          rcases FMAP_PRIORITY_cases f0.type (hk f0 hf0) with h' | h' | h' | h'
          · rw [rankB_eq_of_type h']; decide
          · rw [rankB_eq_of_type h']; decide
          · rw [rankB_eq_of_type h']; decide
          · exact absurd h' hf0t
        omega
      · obtain ⟨e, rfl⟩ : ∃ e, l = [e] := by
          cases l with
          | nil => simp at h1
          | cons x xs =>
            cases xs with
            | nil => exact ⟨x, rfl⟩
            | cons y ys => simp at h1
        have hse : sortFmaps [e] = [e] := rfl
        rw [hse] at hsort
        injection hsort with h1' h2'
        subst h1'
        subst h2'
        exact buildMain_ok_syn_single _ ht
  refine ⟨assembleWf "sdc_wf" p, sel :: tail, ?_⟩
  unfold init_sdc_wf
  rw [hany]
  simp [hck, hsort, hbm, Except.map]

theorem buildMain_pd_syn (fmap : Fmap) (rest : List Fmap) (h : fmap.type = "phasediff")
    (v : String) (hv : fmap.fields.lookup "phasediff" = some v)
    (hne : rest ≠ [])
    (hlast : (rest.getLast hne).type = "syn") :
    buildMain fmap rest = .ok (pdPlusSynParts fmap v) := by
  have hk : getKey fmap "phasediff" = .ok v := by
    unfold getKey
    rw [hv]
  unfold buildMain
  simp [h, hk, hlast, hne, pdPlusSynParts, emptyParts]

theorem init_pd_with_syn (l : List Fmap) (m : List (String × String)) (tpl : Option String)
    (k : Nat) (d b dm : Bool)
    (hty : ∀ f ∈ l, f.type = "phasediff" ∨ f.type = "syn")
    (hpd : ∃ f ∈ l, f.type = "phasediff")
    (hsyn : ∃ f ∈ l, f.type = "syn")
    (hkey : ∀ g, l.find? (fun f => f.type == "phasediff") = some g →
        (g.fields.lookup "phasediff").isSome = true) :
    ∃ sel v, sel.type = "phasediff" ∧
      l.find? (fun f => f.type == "phasediff") = some sel ∧
      init_sdc_wf l m tpl k d b dm =
        .ok (assembleWf "sdc_wf" (pdPlusSynParts sel v), sortFmaps l) := by
  have hkall : ∀ f ∈ l, (FMAP_PRIORITY f.type).isSome = true := by
    intro f hf
    rcases hty f hf with h | h <;> (rw [h]; decide)
  obtain ⟨f1, hf1, hf1t⟩ := hpd
  obtain ⟨f2, hf2, hf2t⟩ := hsyn
  have hlne : l ≠ [] := List.ne_nil_of_mem hf1
  obtain ⟨sel, tail, hsort⟩ : ∃ sel tail, sortFmaps l = sel :: tail := by
    cases hs : sortFmaps l with
    | nil =>
      exfalso
      have hlen := (sortFmaps_perm l).length_eq
      rw [hs] at hlen
      cases l with
      | nil => exact absurd rfl hlne
      | cons x xs => simp at hlen
    | cons x y => exact ⟨x, y, rfl⟩
  have hselmem : sel ∈ l := by
    have hm : sel ∈ sortFmaps l := by
      rw [hsort]
      exact List.mem_cons_self _ _
    exact (sortFmaps_perm l).mem_iff.mp hm
  have hany : l.any knownType = true := by
    rw [List.any_eq_true]
    exact ⟨sel, hselmem, hkall sel hselmem⟩
  have hck : checkKeys l = .ok () := checkKeys_ok l hkall
  have hmin := (sortFmaps_head l sel tail hsort).1 f1 hf1
  have hr1 : rankB f1 = 2 := by rw [rankB_eq_of_type hf1t]; decide
  have hseltype : sel.type = "phasediff" := by
    rcases hty sel hselmem with h | h
    · exact h
    · exfalso
      have h3 : rankB sel = 3 := by rw [rankB_eq_of_type h]; decide
      omega
  have hrsel : rankB sel = 2 := by rw [rankB_eq_of_type hseltype]; decide
  have hfind := (sortFmaps_head l sel tail hsort).2
  rw [hrsel] at hfind
  have hfind2 : l.find? (fun f => f.type == "phasediff") = some sel := by
    rw [← hfind]
    apply find?_congr_mem
    intro x hx
    rcases hty x hx with h | h <;> (rw [h, rankB_eq_of_type h]; decide)
  obtain ⟨v, hv⟩ := Option.isSome_iff_exists.mp (hkey sel hfind2)
  have hne12 : f1 ≠ f2 := by
    intro he
    rw [he] at hf1t
    rw [hf1t] at hf2t
    exact absurd hf2t (by decide)
  have hlen2 : 2 ≤ l.length := by
    cases l with
    | nil => simp at hf1
    | cons x xs =>
      cases xs with
      | nil =>
        rw [List.mem_singleton] at hf1 hf2
        exact absurd (hf1.trans hf2.symm) hne12
      | cons y ys => simp
  have htailne : tail ≠ [] := by
    intro he
    have hlen := (sortFmaps_perm l).length_eq
    rw [hsort, he] at hlen
    simp at hlen
    omega
  have hsorted := sortFmaps_sorted l
  rw [hsort] at hsorted
  have hf2mem : f2 ∈ sel :: tail := by
    rw [← hsort]
    exact (sortFmaps_perm l).mem_iff.mpr hf2
  have hge := sorted_rank_le_getLast (sel :: tail) (List.cons_ne_nil sel tail) hsorted f2 hf2mem
  have hr2 : rankB f2 = 3 := by rw [rankB_eq_of_type hf2t]; decide
  have hlmem : (sel :: tail).getLast (List.cons_ne_nil sel tail) ∈ l := by
    have hm2 : (sel :: tail).getLast (List.cons_ne_nil sel tail) ∈ sortFmaps l := by
      rw [hsort]
      exact List.getLast_mem _
    exact (sortFmaps_perm l).mem_iff.mp hm2
  have hlastsyn : ((sel :: tail).getLast (List.cons_ne_nil sel tail)).type = "syn" := by
    rcases hty _ hlmem with h | h
    · exfalso
      have hx : rankB ((sel :: tail).getLast (List.cons_ne_nil sel tail)) = 2 := by
        rw [rankB_eq_of_type h]
        decide
      omega
    · exact h
  rw [List.getLast_cons htailne] at hlastsyn
  have hbm := buildMain_pd_syn sel tail hseltype v hv htailne hlastsyn
  refine ⟨sel, v, hseltype, hfind2, ?_⟩
  unfold init_sdc_wf
  rw [hany]
  simp [hck, hsort, hbm, Except.map]

theorem sortFmaps_cons_of_ne_nil (l : List Fmap) (hne : l ≠ []) :
    ∃ sel tail, sortFmaps l = sel :: tail := by
  cases hs : sortFmaps l with
  | nil =>
    exfalso
    have hlen := (sortFmaps_perm l).length_eq
    rw [hs] at hlen
    cases l with
    | nil => exact absurd rfl hne
    | cons x xs => simp at hlen
  | cons x y => exact ⟨x, y, rfl⟩

/-- Claim C1: for every non-empty candidate list whose entries all carry
catalog-known type tags and whose last-sorted element is not a forced fallback,
the selected primary (`fmaps[0]` after the sort, lines 168-170) is the head of
the ascending priority sort, its rank is the minimum rank among the
candidates, and ties are broken stably: the head is the FIRST input element
attaining the minimum rank, and every equal-rank class keeps its input order. -/
theorem C1_selection_priority_minimal (l : List Fmap) (hne : l ≠ [])
    (hknown : ∀ f ∈ l, (FMAP_PRIORITY f.type).isSome = true)
    (hlast : ((sortFmaps l).getLast?.all fun g => g.type != "syn") = true) :
    ∃ sel tail, sortFmaps l = sel :: tail ∧
      (∀ f ∈ l, rankB sel ≤ rankB f) ∧
      l.find? (fun f => rankB f == rankB sel) = some sel ∧
      ∀ r, (sortFmaps l).filter (fun f => rankB f == r) =
        l.filter (fun f => rankB f == r) := by
  obtain ⟨sel, tail, hsort⟩ := sortFmaps_cons_of_ne_nil l hne
  exact ⟨sel, tail, hsort, (sortFmaps_head l sel tail hsort).1,
    (sortFmaps_head l sel tail hsort).2, fun r => sortFmaps_filter_rank l r⟩

theorem C1_selection_priority_minimal_witness :
    ∃ sel tail, sortFmaps [pdE, epiE] = sel :: tail ∧
      (∀ f ∈ [pdE, epiE], rankB sel ≤ rankB f) ∧
      [pdE, epiE].find? (fun f => rankB f == rankB sel) = some sel ∧
      ∀ r, (sortFmaps [pdE, epiE]).filter (fun f => rankB f == r) =
        [pdE, epiE].filter (fun f => rankB f == r) :=
  C1_selection_priority_minimal [pdE, epiE] (by decide) (by decide) (by decide)

/-- Claim C2 counterexample: a list mixing one known-type record with one
unknown-type record does not silently discard the unknown entry and select the
known one — the priority sort's key lookup raises `KeyError('weird')`. -/
theorem C2_counterexample :
    init_sdc_wf [pdE, unkE] [] none 1 false false true =
      .error (.keyError "weird") := rfl

/-- Claim C2 amended: records with unknown type tags are not discarded
individually.  Only when NO record has a known tag is the whole list treated
as empty (bypass workflow, no error, identical to the empty-list behaviour);
a list that mixes known and unknown tags raises a `KeyError` naming the first
unknown tag (in input order) during the priority sort. -/
theorem C2_unknown_tags :
    (∀ (l : List Fmap) (m : List (String × String)) (tpl : Option String)
        (k : Nat) (d b dm : Bool),
      (∀ f ∈ l, FMAP_PRIORITY f.type = none) →
      init_sdc_wf l m tpl k d b dm =
          .ok (assembleWf "sdc_bypass_wf" passthroughParts, l) ∧
        (init_sdc_wf l m tpl k d b dm).map Prod.fst =
          (init_sdc_wf [] m tpl k d b dm).map Prod.fst) ∧
    (∀ (l : List Fmap) (u : Fmap) (m : List (String × String)) (tpl : Option String)
        (k : Nat) (d b dm : Bool),
      l.any knownType = true →
      l.find? (fun f => (FMAP_PRIORITY f.type).isNone) = some u →
      init_sdc_wf l m tpl k d b dm = .error (.keyError u.type)) := by
  constructor
  · intro l m tpl k d b dm h
    refine ⟨init_bypass l m tpl k d b dm h, ?_⟩
    rw [init_bypass l m tpl k d b dm h, init_bypass [] m tpl k d b dm (by simp)]
    rfl
  · intro l u m tpl k d b dm hk hu
    exact init_unknown_raises l u m tpl k d b dm hk hu

theorem C2_unknown_tags_witness :
    (init_sdc_wf [unkE] [] none 1 false false true =
        .ok (assembleWf "sdc_bypass_wf" passthroughParts, [unkE]) ∧
      (init_sdc_wf [unkE] [] none 1 false false true).map Prod.fst =
        (init_sdc_wf [] [] none 1 false false true).map Prod.fst) ∧
    init_sdc_wf [epiE, unkE] [] none 1 false false true = .error (.keyError "weird") :=
  ⟨C2_unknown_tags.1 [unkE] [] none 1 false false true (by decide),
   C2_unknown_tags.2 [epiE, unkE] unkE [] none 1 false false true (by decide) (by decide)⟩

/-- Claim C5: an empty candidate list, or one whose records all carry
unrecognized type tags, yields the passthrough workflow: behaviour is
identical to the empty-list case, `bold_ref`, `bold_mask` and `bold_ref_brain`
are wired straight from the like-named inputs, no edge feeds `out_warp` or
`syn_bold_ref`, and no strategy sub-workflow is constructed. -/
theorem C5_passthrough (l : List Fmap) (m : List (String × String)) (tpl : Option String)
    (k : Nat) (d b dm : Bool)
    (h : ∀ f ∈ l, FMAP_PRIORITY f.type = none) :
    init_sdc_wf l m tpl k d b dm =
        .ok (assembleWf "sdc_bypass_wf" passthroughParts, l) ∧
      (init_sdc_wf l m tpl k d b dm).map Prod.fst =
        (init_sdc_wf [] m tpl k d b dm).map Prod.fst ∧
      (assembleWf "sdc_bypass_wf" passthroughParts).edges =
        [⟨"inputnode", "bold_ref", "outputnode", "bold_ref"⟩,
         ⟨"inputnode", "bold_mask", "outputnode", "bold_mask"⟩,
         ⟨"inputnode", "bold_ref_brain", "outputnode", "bold_ref_brain"⟩] ∧
      (assembleWf "sdc_bypass_wf" passthroughParts).subWfs = [] ∧
      ∀ ed ∈ (assembleWf "sdc_bypass_wf" passthroughParts).edges,
        ed.dstPort ≠ "out_warp" ∧ ed.dstPort ≠ "syn_bold_ref" := by
  refine ⟨init_bypass l m tpl k d b dm h, ?_, by decide, by decide, by decide⟩
  rw [init_bypass l m tpl k d b dm h, init_bypass [] m tpl k d b dm (by simp)]
  rfl

theorem C5_passthrough_witness :
    init_sdc_wf [unkE, unkE] [] none 1 false false true =
        .ok (assembleWf "sdc_bypass_wf" passthroughParts, [unkE, unkE]) ∧
      (init_sdc_wf [unkE, unkE] [] none 1 false false true).map Prod.fst =
        (init_sdc_wf [] [] none 1 false false true).map Prod.fst ∧
      (assembleWf "sdc_bypass_wf" passthroughParts).edges =
        [⟨"inputnode", "bold_ref", "outputnode", "bold_ref"⟩,
         ⟨"inputnode", "bold_mask", "outputnode", "bold_mask"⟩,
         ⟨"inputnode", "bold_ref_brain", "outputnode", "bold_ref_brain"⟩] ∧
      (assembleWf "sdc_bypass_wf" passthroughParts).subWfs = [] ∧
      ∀ ed ∈ (assembleWf "sdc_bypass_wf" passthroughParts).edges,
        ed.dstPort ≠ "out_warp" ∧ ed.dstPort ≠ "syn_bold_ref" :=
  C5_passthrough [unkE, unkE] [] none 1 false false true (by decide)

/-- Claim C3 counterexample: a candidate list that contains both a `phasediff`
record and the forced `syn` fallback, but ALSO an `epi` record, does not build
the phase-difference path as primary: the priority sort puts `epi` first, the
method label is PEPOLAR, and no phase-difference estimator node is built. -/
theorem C3_counterexample :
    (init_sdc_wf [epiE, pdE, synE] [] none 1 false false true).map
        (fun r => (r.1.sdc_method, r.1.subWfs.contains "fmap_estimator_wf")) =
      .ok (some "PEB/PEPOLAR (phase-encoding based / PE-POLARity)", false) := rfl

/-- Claim C3 amended: for every candidate list all of whose records are typed
`phasediff` or `syn`, containing at least one of each, and whose selected
(first, in input order) `phasediff` record has a resolved `phasediff` input,
composition builds the phase-difference estimator and unwarp sub-workflows as
the primary path, the outer `syn_bold_ref` port is fed only by the SyN
sub-workflow's report output, and `out_warp`, `bold_ref`, `bold_ref_brain` and
`bold_mask` are wired from the unwarp sub-workflow, not from the fallback. -/
theorem C3_pd_plus_report (l : List Fmap) (m : List (String × String)) (tpl : Option String)
    (k : Nat) (d b dm : Bool)
    (hty : ∀ f ∈ l, f.type = "phasediff" ∨ f.type = "syn")
    (hpd : ∃ f ∈ l, f.type = "phasediff")
    (hsyn : ∃ f ∈ l, f.type = "syn")
    (hkey : ((l.find? (fun f => f.type == "phasediff")).all
        fun g => (g.fields.lookup "phasediff").isSome) = true) :
    ∃ wf rest, init_sdc_wf l m tpl k d b dm = .ok (wf, rest) ∧
      wf.sdc_method = some "FMB (phasediff-based)" ∧
      "fmap_estimator_wf" ∈ wf.subWfs ∧ "sdc_unwarp_wf" ∈ wf.subWfs ∧
      "syn_sdc_wf" ∈ wf.subWfs ∧
      wf.estPhasediff.isSome = true ∧
      synReportEdge ∈ wf.edges ∧
      (∀ e ∈ wf.edges, e.dstPort = "syn_bold_ref" → e = synReportEdge) ∧
      Edge.mk "sdc_unwarp_wf" "outputnode.out_warp" "outputnode" "out_warp" ∈ wf.edges ∧
      Edge.mk "sdc_unwarp_wf" "outputnode.out_reference" "outputnode" "bold_ref" ∈ wf.edges ∧
      Edge.mk "sdc_unwarp_wf" "outputnode.out_reference_brain" "outputnode"
        "bold_ref_brain" ∈ wf.edges ∧
      Edge.mk "sdc_unwarp_wf" "outputnode.out_mask" "outputnode" "bold_mask" ∈ wf.edges ∧
      ∀ e ∈ wf.edges, e.dst = "outputnode" → e.dstPort ≠ "syn_bold_ref" →
        e.src = "sdc_unwarp_wf" := by
  have hkey2 : ∀ g, l.find? (fun f => f.type == "phasediff") = some g →
      (g.fields.lookup "phasediff").isSome = true := by
    intro g hg
    rw [hg] at hkey
    simpa using hkey
  obtain ⟨sel, v, hselt, hfind, heq⟩ :=
    init_pd_with_syn l m tpl k d b dm hty hpd hsyn hkey2
  have hfacts :
      ("fmap_estimator_wf" ∈ (["fmap_estimator_wf", "sdc_unwarp_wf", "syn_sdc_wf"] :
          List String)) ∧
      ("sdc_unwarp_wf" ∈ (["fmap_estimator_wf", "sdc_unwarp_wf", "syn_sdc_wf"] :
          List String)) ∧
      ("syn_sdc_wf" ∈ (["fmap_estimator_wf", "sdc_unwarp_wf", "syn_sdc_wf"] :
          List String)) ∧
      synReportEdge ∈ fmapToUnwarpEdges ++ synInputEdges ++ [synReportEdge] ++
        finalEdges "sdc_unwarp_wf" ∧
      (∀ e ∈ fmapToUnwarpEdges ++ synInputEdges ++ [synReportEdge] ++
          finalEdges "sdc_unwarp_wf",
        e.dstPort = "syn_bold_ref" → e = synReportEdge) ∧
      Edge.mk "sdc_unwarp_wf" "outputnode.out_warp" "outputnode" "out_warp" ∈
        fmapToUnwarpEdges ++ synInputEdges ++ [synReportEdge] ++ finalEdges "sdc_unwarp_wf" ∧
      Edge.mk "sdc_unwarp_wf" "outputnode.out_reference" "outputnode" "bold_ref" ∈
        fmapToUnwarpEdges ++ synInputEdges ++ [synReportEdge] ++ finalEdges "sdc_unwarp_wf" ∧
      Edge.mk "sdc_unwarp_wf" "outputnode.out_reference_brain" "outputnode"
          "bold_ref_brain" ∈
        fmapToUnwarpEdges ++ synInputEdges ++ [synReportEdge] ++ finalEdges "sdc_unwarp_wf" ∧
      Edge.mk "sdc_unwarp_wf" "outputnode.out_mask" "outputnode" "bold_mask" ∈
        fmapToUnwarpEdges ++ synInputEdges ++ [synReportEdge] ++ finalEdges "sdc_unwarp_wf" ∧
      ∀ e ∈ fmapToUnwarpEdges ++ synInputEdges ++ [synReportEdge] ++
          finalEdges "sdc_unwarp_wf",
        e.dst = "outputnode" → e.dstPort ≠ "syn_bold_ref" → e.src = "sdc_unwarp_wf" := by
    decide
  exact ⟨assembleWf "sdc_wf" (pdPlusSynParts sel v), sortFmaps l, heq,
    rfl, hfacts.1, hfacts.2.1, hfacts.2.2.1, rfl, hfacts.2.2.2.1, hfacts.2.2.2.2.1,
    hfacts.2.2.2.2.2.1, hfacts.2.2.2.2.2.2.1, hfacts.2.2.2.2.2.2.2.1,
    hfacts.2.2.2.2.2.2.2.2.1, hfacts.2.2.2.2.2.2.2.2.2⟩

theorem C3_pd_plus_report_witness :
    ∃ wf rest, init_sdc_wf [pdE, synE] [] none 1 false false true = .ok (wf, rest) ∧
      wf.sdc_method = some "FMB (phasediff-based)" ∧
      "fmap_estimator_wf" ∈ wf.subWfs ∧ "sdc_unwarp_wf" ∈ wf.subWfs ∧
      "syn_sdc_wf" ∈ wf.subWfs ∧
      wf.estPhasediff.isSome = true ∧
      synReportEdge ∈ wf.edges ∧
      (∀ e ∈ wf.edges, e.dstPort = "syn_bold_ref" → e = synReportEdge) ∧
      Edge.mk "sdc_unwarp_wf" "outputnode.out_warp" "outputnode" "out_warp" ∈ wf.edges ∧
      Edge.mk "sdc_unwarp_wf" "outputnode.out_reference" "outputnode" "bold_ref" ∈ wf.edges ∧
      Edge.mk "sdc_unwarp_wf" "outputnode.out_reference_brain" "outputnode"
        "bold_ref_brain" ∈ wf.edges ∧
      Edge.mk "sdc_unwarp_wf" "outputnode.out_mask" "outputnode" "bold_mask" ∈ wf.edges ∧
      ∀ e ∈ wf.edges, e.dst = "outputnode" → e.dstPort ≠ "syn_bold_ref" →
        e.src = "sdc_unwarp_wf" :=
  C3_pd_plus_report [pdE, synE] [] none 1 false false true (by decide)
    ⟨pdE, by decide, by decide⟩ ⟨synE, by decide, by decide⟩ (by decide)

/-- Claim C4 counterexample: a candidate list in which the `syn` record is the
only known-type record but an unrecognized record is also present does not
yield a fallback-only workflow: the sort raises `KeyError('weird')`. -/
theorem C4_counterexample :
    init_sdc_wf [synE, unkE] [] none 1 false false true =
      .error (.keyError "weird") := rfl

/-- Claim C4 amended: for the candidate list consisting of exactly one `syn`
record (and nothing else), composition yields the fallback-only workflow: the
SyN sub-workflow is the sole correction path, its `out_warp`, `out_reference`,
`out_reference_brain` and `out_mask` outputs feed the outer output ports, the
method label is the fieldmap-less SyN label, and `syn_bold_ref` stays
unconnected. -/
theorem C4_fallback_only (e : Fmap) (m : List (String × String)) (tpl : Option String)
    (k : Nat) (d b dm : Bool) (he : e.type = "syn") :
    init_sdc_wf [e] m tpl k d b dm = .ok (assembleWf "sdc_wf" fallbackOnlyParts, [e]) ∧
      (assembleWf "sdc_wf" fallbackOnlyParts).sdc_method =
        some "FLB (\"fieldmap-less\" based) - SyN" ∧
      (assembleWf "sdc_wf" fallbackOnlyParts).subWfs = ["syn_sdc_wf"] ∧
      (assembleWf "sdc_wf" fallbackOnlyParts).edges =
        synInputEdges ++ finalEdges "syn_sdc_wf" ∧
      ∀ ed ∈ (assembleWf "sdc_wf" fallbackOnlyParts).edges,
        ed.dstPort ≠ "syn_bold_ref" := by
  obtain ⟨ty, fs, md⟩ := e
  simp only [Fmap.type] at he
  subst he
  exact ⟨init_single_syn fs md m tpl k d b dm, rfl, rfl, rfl, by decide⟩

theorem C4_fallback_only_witness :
    init_sdc_wf [synE] [] none 1 false false true =
        .ok (assembleWf "sdc_wf" fallbackOnlyParts, [synE]) ∧
      (assembleWf "sdc_wf" fallbackOnlyParts).sdc_method =
        some "FLB (\"fieldmap-less\" based) - SyN" ∧
      (assembleWf "sdc_wf" fallbackOnlyParts).subWfs = ["syn_sdc_wf"] ∧
      (assembleWf "sdc_wf" fallbackOnlyParts).edges =
        synInputEdges ++ finalEdges "syn_sdc_wf" ∧
      ∀ ed ∈ (assembleWf "sdc_wf" fallbackOnlyParts).edges,
        ed.dstPort ≠ "syn_bold_ref" :=
  C4_fallback_only synE [] none 1 false false true rfl

/-- Claim C6 counterexample: a chosen `phasediff` record with no magnitude keys
at all does NOT fail fast: composition returns a workflow normally, wiring an
empty magnitude list into the estimator (and no `MissingInputError` type
exists anywhere in the code). -/
theorem C6_counterexample :
    (init_sdc_wf [pdNoMagE] [] none 1 false false true).map
        (fun r => (r.1.estMagnitudeList, r.1.sdc_method)) =
      .ok (some [], some "FMB (phasediff-based)") := rfl

/-- Claim C6 amended: a chosen record missing a key that composition subscripts
directly raises the builtin `KeyError` naming just the missing key (not a
`MissingInputError`, and not naming the strategy type): `'fieldmap'` type
missing `'fieldmap'` or `'magnitude'`, `'phasediff'` type missing
`'phasediff'`.  A `'phasediff'` record with no magnitude keys does not fail:
the (possibly empty) name-sorted magnitude list is wired and a full workflow
is returned. -/
theorem C6_missing_key_errors :
    (∀ (fs : List (String × String)) (md : Option (List (String × String)))
        (m : List (String × String)) (tpl : Option String) (k : Nat) (d b dm : Bool),
      fs.lookup "fieldmap" = none →
      init_sdc_wf [⟨"fieldmap", fs, md⟩] m tpl k d b dm =
        .error (.keyError "fieldmap")) ∧
    (∀ (fs : List (String × String)) (md : Option (List (String × String))) (v : String)
        (m : List (String × String)) (tpl : Option String) (k : Nat) (d b dm : Bool),
      fs.lookup "fieldmap" = some v → fs.lookup "magnitude" = none →
      init_sdc_wf [⟨"fieldmap", fs, md⟩] m tpl k d b dm =
        .error (.keyError "magnitude")) ∧
    (∀ (fs : List (String × String)) (md : Option (List (String × String)))
        (m : List (String × String)) (tpl : Option String) (k : Nat) (d b dm : Bool),
      fs.lookup "phasediff" = none →
      init_sdc_wf [⟨"phasediff", fs, md⟩] m tpl k d b dm =
        .error (.keyError "phasediff")) ∧
    (∀ (fs : List (String × String)) (md : Option (List (String × String))) (v : String)
        (m : List (String × String)) (tpl : Option String) (k : Nat) (d b dm : Bool),
      fs.lookup "phasediff" = some v →
      init_sdc_wf [⟨"phasediff", fs, md⟩] m tpl k d b dm =
        .ok (assembleWf "sdc_wf" (pdOnlyParts ⟨"phasediff", fs, md⟩ v),
             [⟨"phasediff", fs, md⟩])) :=
  ⟨fun fs md m tpl k d b dm h => init_single_fieldmap_missing_fm fs md m tpl k d b dm h,
   fun fs md v m tpl k d b dm hv h => init_single_fieldmap_missing_mag fs md v m tpl k d b dm hv h,
   fun fs md m tpl k d b dm h => init_single_phasediff_missing fs md m tpl k d b dm h,
   fun fs md v m tpl k d b dm h => init_single_phasediff fs md v m tpl k d b dm h⟩

theorem C6_missing_key_errors_witness :
    init_sdc_wf [⟨"fieldmap", [], none⟩] [] none 1 false false true =
        .error (.keyError "fieldmap") ∧
      init_sdc_wf [⟨"fieldmap", [("fieldmap", "F")], none⟩] [] none 1 false false true =
        .error (.keyError "magnitude") ∧
      init_sdc_wf [⟨"phasediff", [], none⟩] [] none 1 false false true =
        .error (.keyError "phasediff") ∧
      init_sdc_wf [pdNoMagE] [] none 1 false false true =
        .ok (assembleWf "sdc_wf" (pdOnlyParts pdNoMagE "P"), [pdNoMagE]) :=
  ⟨C6_missing_key_errors.1 [] none [] none 1 false false true rfl,
   C6_missing_key_errors.2.1 [("fieldmap", "F")] none "F" [] none 1 false false true rfl rfl,
   C6_missing_key_errors.2.2.1 [] none [] none 1 false false true rfl,
   C6_missing_key_errors.2.2.2 [("phasediff", "P")] none "P" [] none 1 false false true rfl⟩

/-- Claim C7: for a `phasediff` primary the magnitude list wired into the
estimator consists of exactly the values of the raw-input keys starting with
`"magnitude"`, sorted ascending by key name (given the dict's distinct keys):
the source's sort-then-filter equals the spec's filter-then-sort, the result
is invariant under reordering of the input mapping, the documented example
`{magnitude2: B, magnitude1: A}` wires `[A, B]`, and the composed workflow for
a single phasediff record carries exactly this list. -/
theorem C7_magnitude_ordering :
    (∀ f : Fmap, (f.fields.map Prod.fst).Nodup →
      magnitudeList f = specMagnitudeList f.fields) ∧
    (∀ (ty : String) (d1 d2 : List (String × String))
        (md : Option (List (String × String))),
      List.Perm d1 d2 → (d1.map Prod.fst).Nodup →
      magnitudeList ⟨ty, d1, md⟩ = magnitudeList ⟨ty, d2, md⟩) ∧
    magnitudeList ⟨"phasediff",
      [("magnitude2", "B"), ("magnitude1", "A"), ("phasediff", "P")], none⟩ = ["A", "B"] ∧
    (∀ (fs : List (String × String)) (md : Option (List (String × String))) (v : String)
        (m : List (String × String)) (tpl : Option String) (k : Nat) (d b dm : Bool),
      fs.lookup "phasediff" = some v →
      (init_sdc_wf [⟨"phasediff", fs, md⟩] m tpl k d b dm).map
          (fun r => r.1.estMagnitudeList) =
        .ok (some (magnitudeList ⟨"phasediff", fs, md⟩))) := by
  refine ⟨?_, ?_, by decide, ?_⟩
  · intro f hn
    unfold magnitudeList specMagnitudeList
    rw [sortPairs_filter_comm f.fields hn (fun kv => startsWithMagnitude kv.1)]
  · intro ty d1 d2 md hp hn
    unfold magnitudeList
    rw [show (Fmap.mk ty d1 md).fields = d1 from rfl,
      show (Fmap.mk ty d2 md).fields = d2 from rfl,
      sortPairs_eq_of_perm d1 d2 hp hn]
  · intro fs md v m tpl k d b dm h
    rw [init_single_phasediff fs md v m tpl k d b dm h]
    rfl

theorem C7_magnitude_ordering_witness :
    magnitudeList pdE = specMagnitudeList pdE.fields ∧
    magnitudeList ⟨"phasediff", [("magnitude2", "B"), ("magnitude1", "A")], none⟩ =
      magnitudeList ⟨"phasediff", [("magnitude1", "A"), ("magnitude2", "B")], none⟩ ∧
    (init_sdc_wf [pdE] [] none 1 false false true).map (fun r => r.1.estMagnitudeList) =
      .ok (some (magnitudeList pdE)) :=
  ⟨C7_magnitude_ordering.1 pdE (by decide),
   C7_magnitude_ordering.2.1 "phasediff" [("magnitude2", "B"), ("magnitude1", "A")]
     [("magnitude1", "A"), ("magnitude2", "B")] none
     (List.Perm.swap ("magnitude1", "A") ("magnitude2", "B") []) (by decide),
   C7_magnitude_ordering.2.2.2 [("phasediff", "P"), ("magnitude2", "B"), ("magnitude1", "A")]
     none "P" [] none 1 false false true rfl⟩

/-- Claim C8 counterexample: the call is not side-effect-free on its input:
`fmaps.sort(...)` reorders the caller's list in place, so after a successful
call on `[syn, epi]` the caller's list is `[epi, syn]`, not the original
order. -/
theorem C8_counterexample :
    (init_sdc_wf [synE, epiE] [] none 1 false false true).map Prod.snd =
        .ok [epiE, synE] ∧
      [epiE, synE] ≠ [synE, epiE] := ⟨rfl, by decide⟩

/-- Claim C8 amended: each call is a deterministic function of its inputs with
no shared state across invocations, but it sorts the caller-supplied list in
place: on success the caller's list afterwards is a permutation (the
priority-sorted reordering) of the original — the same records, possibly in a
different order. -/
theorem C8_caller_list_permuted (l : List Fmap) (m : List (String × String))
    (tpl : Option String) (k : Nat) (d b dm : Bool) (wf : SdcWf) (rest : List Fmap)
    (h : init_sdc_wf l m tpl k d b dm = .ok (wf, rest)) :
    List.Perm rest l := by
  rcases init_ok_inversion l m tpl k d b dm wf rest h with ⟨p, -, hr⟩ | ⟨-, hr⟩
  · rw [hr]
    exact sortFmaps_perm l
  · rw [hr]

theorem C8_caller_list_permuted_witness :
    List.Perm [epiE, synE] [synE, epiE] :=
  C8_caller_list_permuted [synE, epiE] [] none 1 false false true _ [epiE, synE] rfl

/-- Claim C9 counterexample: the composed graph's input port set does not
contain a port named `t1_to_template_reverse_transform`; the code names this
input `t1_2_mni_reverse_transform` (line 151). -/
theorem C9_counterexample :
    init_sdc_wf [] [] none 1 false false true =
        .ok (assembleWf "sdc_bypass_wf" passthroughParts, []) ∧
      (assembleWf "sdc_bypass_wf" passthroughParts).inputFields.contains
        "t1_to_template_reverse_transform" = false := ⟨rfl, rfl⟩

/-- Claim C9 amended: whenever composition returns a workflow — whichever
strategy or the passthrough was chosen — it exposes exactly the fixed port
set: inputs `name_source`, `bold_ref`, `bold_ref_brain`, `bold_mask`,
`t1_brain` and `t1_2_mni_reverse_transform` (the code's name for the
reverse-transform input), and outputs `bold_ref`, `bold_mask`,
`bold_ref_brain`, `out_warp` and `syn_bold_ref`. -/
theorem C9_fixed_port_set (l : List Fmap) (m : List (String × String))
    (tpl : Option String) (k : Nat) (d b dm : Bool) (wf : SdcWf) (rest : List Fmap)
    (h : init_sdc_wf l m tpl k d b dm = .ok (wf, rest)) :
    wf.inputFields = ["name_source", "bold_ref", "bold_ref_brain", "bold_mask",
        "t1_brain", "t1_2_mni_reverse_transform"] ∧
      wf.outputFields = ["bold_ref", "bold_mask", "bold_ref_brain",
        "out_warp", "syn_bold_ref"] := by
  rcases init_ok_inversion l m tpl k d b dm wf rest h with ⟨p, hw, -⟩ | ⟨hw, -⟩ <;>
    rw [hw] <;> exact ⟨rfl, rfl⟩

theorem C9_fixed_port_set_witness :
    (assembleWf "sdc_bypass_wf" passthroughParts).inputFields =
        ["name_source", "bold_ref", "bold_ref_brain", "bold_mask",
         "t1_brain", "t1_2_mni_reverse_transform"] ∧
      (assembleWf "sdc_bypass_wf" passthroughParts).outputFields =
        ["bold_ref", "bold_mask", "bold_ref_brain", "out_warp", "syn_bold_ref"] :=
  C9_fixed_port_set [] [] none 1 false false true
    (assembleWf "sdc_bypass_wf" passthroughParts) [] rfl

/-- Claim C10 counterexample: composition does NOT terminate normally for every
candidate list whose known-type entries include a non-`syn` type: a single
`fieldmap` record with no `fieldmap` key raises `KeyError` instead of
returning a graph. -/
theorem C10_counterexample :
    init_sdc_wf [fmE] [] none 1 false false true = .error (.keyError "fieldmap") := rfl

/-- Claim C10 amended: for every candidate list whose records all carry
known type tags and the per-type required keys, composition returns a graph
whenever the list contains a non-`syn` record or is a singleton; but for every
list of two or more records all of type `syn`, the final output-wiring step
references the never-assigned `sdc_unwarp_wf` variable and the call raises an
unhandled `NameError` instead of returning a graph. -/
theorem C10_nameerror_on_multi_syn :
    (∀ (l : List Fmap) (m : List (String × String)) (tpl : Option String)
        (k : Nat) (d b dm : Bool),
      (∀ f ∈ l, wellFormedB f = true) →
      (∀ f ∈ l, (FMAP_PRIORITY f.type).isSome = true) →
      ((∃ f ∈ l, f.type ≠ "syn") ∨ l.length = 1) →
      ∃ wf rest, init_sdc_wf l m tpl k d b dm = .ok (wf, rest)) ∧
    (∀ (l : List Fmap) (m : List (String × String)) (tpl : Option String)
        (k : Nat) (d b dm : Bool),
      2 ≤ l.length → (∀ f ∈ l, f.type = "syn") →
      init_sdc_wf l m tpl k d b dm = .error (.nameError "sdc_unwarp_wf")) :=
  ⟨init_ok_of_wellformed, init_allsyn_error⟩

theorem C10_nameerror_on_multi_syn_witness :
    (∃ wf rest, init_sdc_wf [epiE] [] none 1 false false true = .ok (wf, rest)) ∧
      init_sdc_wf [synE, synE] [] none 1 false false true =
        .error (.nameError "sdc_unwarp_wf") :=
  ⟨C10_nameerror_on_multi_syn.1 [epiE] [] none 1 false false true (by decide) (by decide)
      (Or.inl ⟨epiE, by decide, by decide⟩),
   C10_nameerror_on_multi_syn.2 [synE, synE] [] none 1 false false true (by decide)
      (by decide)⟩
